import Mathlib

/-!
Verification of the streaming/buffering engine of `src/ML/demucs_server.py`
(BlackHoleMonitorApp). The server accumulates pushed stereo frames, forms
overlapping chunks, runs them through a separation transform, crossfades the
lead-in of each transformed chunk, and serves the non-overlapping portion to
pulling clients.

Frames are modelled as pairs of rationals (the float32 samples), buffers as
Lean lists (the deques, head = front), and the processing loop / connection
handler as pure step functions on an explicit state.
-/

namespace Demucs

/-- Server configuration constants, demucs_server.py lines 29-34. -/
def SAMPLE_RATE : ℕ := 44100

/-- Number of interleaved channels (stereo), line 32. -/
def CHANNELS : ℕ := 2

/-- Seconds to buffer before processing, line 33. -/
def CHUNK_DURATION : ℚ := 3

/-- Overlap between chunks in seconds, line 34. -/
def OVERLAP : ℚ := 1/2

/-- One stereo sample pair (left, right), as pushed to the deques one
`sample` (a length-2 numpy row) at a time. -/
abbrev Frame := ℚ × ℚ

/-- A zero-valued frame, as produced by `np.zeros((overlap_samples, CHANNELS))`. -/
def zeroFrame : Frame := (0, 0)

/-- `np.linspace(a, b, n)`: `n` evenly spaced values from `a` to `b`
inclusive; for `n = 1` numpy returns `[a]`, for `n = 0` the empty array.
Used at lines 52-53 for the fade curves. -/
def linspace (a b : ℚ) (n : ℕ) : List ℚ :=
  (List.range n).map (fun i : ℕ => if n = 1 then a else a + (i : ℚ) * (b - a) / ((n : ℚ) - 1))

/-- `self.fade_in = np.linspace(0, 1, overlap_samples)` (line 52). -/
def fadeInCurve (overlap_samples : ℕ) : List ℚ := linspace 0 1 overlap_samples

/-- `self.fade_out = np.linspace(1, 0, overlap_samples)` (line 53). -/
def fadeOutCurve (overlap_samples : ℕ) : List ℚ := linspace 1 0 overlap_samples

/-- The configuration-derived state built by `DemucsServer.__init__`
(lines 37-56): buffer sizes in samples and the fade curves. `int(x)` on the
nonnegative products is truncation, i.e. the floor. `hop_samples` is kept as
an integer because the Python subtraction can go negative; `__init__`
performs no validation of it. -/
structure ServerInit where
  chunk_samples : ℕ
  overlap_samples : ℕ
  hop_samples : ℤ
  fade_in : List ℚ
  fade_out : List ℚ
deriving Repr, DecidableEq

/-- `DemucsServer.__init__` as a function of the module-level configuration
constants (lines 47-53). No configuration check of any kind is performed:
every configuration yields a constructed state. -/
def mkServer (chunk_duration overlap : ℚ) (sample_rate : ℕ) : ServerInit :=
  let cs : ℕ := (⌊chunk_duration * sample_rate⌋).toNat
  let os : ℕ := (⌊overlap * sample_rate⌋).toNat
  { chunk_samples := cs
    overlap_samples := os
    hop_samples := (cs : ℤ) - (os : ℤ)
    fade_in := fadeInCurve os
    fade_out := fadeOutCurve os }

/-- The server instance actually constructed by the script. -/
def theServer : ServerInit := mkServer CHUNK_DURATION OVERLAP SAMPLE_RATE

theorem theServer_chunk : theServer.chunk_samples = 132300 := by
  norm_num [theServer, mkServer, CHUNK_DURATION, SAMPLE_RATE]
  rfl

theorem theServer_overlap : theServer.overlap_samples = 22050 := by
  norm_num [theServer, mkServer, OVERLAP, SAMPLE_RATE]
  rfl

theorem theServer_hop : theServer.hop_samples = 110250 := by
  norm_num [theServer, mkServer, CHUNK_DURATION, OVERLAP, SAMPLE_RATE]

theorem linspace_length (a b : ℚ) (n : ℕ) : (linspace a b n).length = n := by
  rw [linspace, List.length_map, List.length_range]

theorem linspace_getD (a b : ℚ) (n i : ℕ) (hi : i < n) :
    (linspace a b n).getD i 0 =
      if n = 1 then a else a + i * (b - a) / ((n : ℚ) - 1) := by
  rw [linspace, List.getD_eq_getElem?_getD, List.getElem?_map,
    List.getElem?_range hi]
  rfl

/-- The mutable state shared by the processing loop and the connection
handler: `self.input_buffer`, `self.output_buffer` (deques of frames, head at
the front) and `self.prev_overlap` (`None` before the first iteration). -/
structure ProcState where
  inputBuf : List Frame
  outputBuf : List Frame
  prevOverlap : Option (List Frame)
deriving Repr, DecidableEq

/-- State right after `__init__`: both deques empty, `prev_overlap = None`. -/
def initialState : ProcState := ⟨[], [], none⟩

/-- Python negative-index slicing `l[-k:]` of a numpy array / list: the last
`k` entries, except that `l[-0:]` is the whole array. Used at line 167 for
`full_chunk[-self.overlap_samples:]`. -/
def lastSlice (k : ℕ) (l : List Frame) : List Frame :=
  if k = 0 then l else l.drop (l.length - k)

/-- The in-place `processed[:overlap, ch] *= fade_in` of lines 163-164: the
first `fade.length` frames are scaled componentwise (both channels) by the
fade curve, the rest of the array is untouched. -/
def crossfadeHead (fade : List ℚ) (chunk : List Frame) : List Frame :=
  List.zipWith (fun c f => (c * f.1, c * f.2)) fade chunk ++ chunk.drop fade.length

/-- The guarded crossfade of lines 160-164: applied only when this is not
the first iteration (`prev_overlap is not None`) and
`len(processed) > overlap_samples`. -/
def crossfadeStep (overlap_samples : ℕ) (isFirst : Bool) (processed : List Frame) :
    List Frame :=
  if isFirst = false ∧ overlap_samples < processed.length then
    crossfadeHead (fadeInCurve overlap_samples) processed
  else processed

/-- `process_audio` (lines 85-130). The external engine (the whole torch
`try` body) is an opaque transform that either returns a chunk or raises;
with no model loaded the input is returned as is (line 92), and a raised
exception is caught and the input returned as is (lines 128-130). -/
def process_audio (model : Option (List Frame → Except String (List Frame)))
    (audio : List Frame) : List Frame :=
  match model with
  | none => audio
  | some engine =>
    match engine audio with
    | .ok result => result
    | .error _ => audio

/-- One iteration of `processing_loop` (lines 136-175), parametrised by the
buffer sizes and the already-adapted transform `T` (i.e. `process_audio`
with its model fixed). If fewer than `chunk_samples` frames are buffered the
state is unchanged (the thread just sleeps); otherwise `hop_samples =
chunk_samples - overlap_samples` frames are popped from the input deque, the
full chunk is the carried overlap (or the zero pad) followed by the popped
frames, the transform runs, the guarded crossfade rewrites the lead-in, the
input tail is carried, and the frames after the overlap are appended to the
output deque. -/
def procStep (chunk_samples overlap_samples : ℕ) (T : List Frame → List Frame)
    (s : ProcState) : ProcState :=
  if chunk_samples ≤ s.inputBuf.length then
    let hop := chunk_samples - overlap_samples
    let popped := s.inputBuf.take hop
    let seed := s.prevOverlap.getD (List.replicate overlap_samples zeroFrame)
    let full_chunk := seed ++ popped
    let processed := T full_chunk
    let processed2 := crossfadeStep overlap_samples s.prevOverlap.isNone processed
    { inputBuf := s.inputBuf.drop hop
      outputBuf := s.outputBuf ++ processed2.drop overlap_samples
      prevOverlap := some (lastSlice overlap_samples full_chunk) }
  else s

/-- The `while self.running` polling loop of `processing_loop`, run for a
given number of poll rounds. -/
def procRun (chunk_samples overlap_samples : ℕ) (T : List Frame → List Frame) :
    ℕ → ProcState → ProcState
  | 0, s => s
  | fuel + 1, s =>
    if chunk_samples ≤ s.inputBuf.length then
      procRun chunk_samples overlap_samples T fuel
        (procStep chunk_samples overlap_samples T s)
    else s

/-- Splitting the interleaved float32 stream into stereo frames:
`np.frombuffer(...).reshape(-1, CHANNELS)` with `CHANNELS = 2` (line 234). -/
def deinterleave : List ℚ → List Frame
  | a :: b :: rest => (a, b) :: deinterleave rest
  | _ => []

/-- Reply sent back on a handled request: a bare 4-byte count (heartbeat
ack / push ack), a count followed by serialized frames (pull), or no reply
because the handler broke out of its loop and closed the connection. -/
inductive Reply where
  | ack (count : ℕ)
  | data (count : ℕ) (frames : List Frame)
  | closed
deriving Repr, DecidableEq

/-- The pull branch of `handle_client` (lines 205-219): pop
`min(4096, len(output_buffer))` frames from the front of the output deque
and send their count followed by the frames themselves. -/
def handlePull (s : ProcState) : ProcState × ℕ × List Frame :=
  let available := min 4096 s.outputBuf.length
  let out := s.outputBuf.take available
  ({ s with outputBuf := s.outputBuf.drop available }, out.length, out)

/-- One request of `handle_client` (lines 190-242). `header` is the decoded
4-byte unsigned value; `received` is the stream of float32 payload values
the connection delivers before the peer closes (4 bytes each, so the bytes
actually read are `4 * received.length`, capped by the code at
`data_size = header * CHANNELS * 4`). Header `0` is a heartbeat, header
`0xFFFFFFFF` a pull; any other header pushes `header` frames, except that a
short payload read breaks the loop with nothing appended. -/
def handleRequest (s : ProcState) (header : ℕ) (received : List ℚ) :
    ProcState × Reply :=
  if header = 0 then
    (s, .ack s.outputBuf.length)
  else if header = 4294967295 then
    let r := handlePull s
    (r.1, .data r.2.1 r.2.2)
  else
    if 4 * received.length < header * CHANNELS * 4 then
      (s, .closed)
    else
      let samples := deinterleave (received.take (header * CHANNELS))
      ({ s with inputBuf := s.inputBuf ++ samples }, .ack samples.length)

/-- Total number of frames delivered by `m` successive pull requests. -/
def pullDrainCount : ℕ → ProcState → ℕ
  | 0, _ => 0
  | m + 1, s => (handlePull s).2.1 + pullDrainCount m (handlePull s).1

theorem getD_pos {α : Type} (l : List α) (d : α) (i : ℕ) (h : i < l.length) :
    l.getD i d = l.get ⟨i, h⟩ := by
  rw [List.getD_eq_getElem?_getD, List.getElem?_eq_getElem h, Option.getD_some]
  rfl

theorem fadeInCurve_length (n : ℕ) : (fadeInCurve n).length = n :=
  linspace_length 0 1 n

theorem crossfadeHead_length (fade : List ℚ) (chunk : List Frame) :
    (crossfadeHead fade chunk).length = chunk.length := by
  simp only [crossfadeHead, List.length_append, List.length_zipWith, List.length_drop]
  omega

theorem crossfadeStep_length (o : ℕ) (b : Bool) (l : List Frame) :
    (crossfadeStep o b l).length = l.length := by
  rw [crossfadeStep]
  split
  · exact crossfadeHead_length _ _
  · rfl

theorem deinterleave_length (l : List ℚ) : (deinterleave l).length = l.length / 2 := by
  induction l using deinterleave.induct with
  | case1 a b rest ih => simp [deinterleave, ih]; omega
  | case2 l h => cases l with
    | nil => simp [deinterleave]
    | cons a t => cases t with
      | nil => simp [deinterleave]
      | cons b t2 => exact absurd rfl (h a b t2)

theorem procRun_no_iter (chunk overlap : ℕ) (T : List Frame → List Frame)
    (fuel : ℕ) (s : ProcState) (h : s.inputBuf.length < chunk) :
    procRun chunk overlap T fuel s = s := by
  cases fuel with
  | zero => rfl
  | succ f => rw [procRun, if_neg (by omega)]

theorem procStep_spec (chunk overlap : ℕ) (T : List Frame → List Frame)
    (hT : ∀ l, (T l).length = l.length)
    (h1 : 1 ≤ overlap) (h2 : overlap ≤ chunk - overlap)
    (s : ProcState) (hpo : ∀ l, s.prevOverlap = some l → l.length = overlap)
    (hin : chunk ≤ s.inputBuf.length) :
    (procStep chunk overlap T s).inputBuf.length
        = s.inputBuf.length - (chunk - overlap) ∧
    (procStep chunk overlap T s).outputBuf.length
        = s.outputBuf.length + (chunk - overlap) ∧
    (∀ l, (procStep chunk overlap T s).prevOverlap = some l → l.length = overlap) := by
  have hseed : (s.prevOverlap.getD (List.replicate overlap zeroFrame)).length = overlap := by
    cases hpo2 : s.prevOverlap with
    | none => simp
    | some l => simpa using hpo l hpo2
  have hfull : ((s.prevOverlap.getD (List.replicate overlap zeroFrame))
      ++ s.inputBuf.take (chunk - overlap)).length = chunk := by
    rw [List.length_append, hseed, List.length_take]
    omega
  refine ⟨?_, ?_, ?_⟩
  · simp [procStep, if_pos hin]
  · simp only [procStep, if_pos hin, List.length_append, List.length_drop,
      crossfadeStep_length, hT, hfull]
  · intro l hl
    simp only [procStep, if_pos hin] at hl
    rw [lastSlice, if_neg (by omega)] at hl
    have := Option.some.inj hl
    rw [← this, List.length_drop, hfull]
    omega

theorem procRun_drain (chunk overlap : ℕ) (T : List Frame → List Frame)
    (hT : ∀ l, (T l).length = l.length)
    (h1 : 1 ≤ overlap) (h2 : overlap ≤ chunk - overlap) :
    ∀ (k fuel : ℕ) (s : ProcState), k ≤ fuel →
      s.inputBuf.length = k * (chunk - overlap) →
      (∀ l, s.prevOverlap = some l → l.length = overlap) →
      (procRun chunk overlap T fuel s).outputBuf.length
          = s.outputBuf.length + (k - 1) * (chunk - overlap) ∧
      (procRun chunk overlap T fuel s).inputBuf.length
          = min k 1 * (chunk - overlap) := by
  intro k
  induction k with
  | zero =>
    intro fuel s hf hlen hpo
    rw [procRun_no_iter chunk overlap T fuel s (by omega)]
    constructor
    · simp
    · simpa using hlen
  | succ j ih =>
    intro fuel s hf hlen hpo
    by_cases hc : chunk ≤ s.inputBuf.length
    · obtain ⟨f, rfl⟩ : ∃ f, fuel = f + 1 := ⟨fuel - 1, by omega⟩
      rw [procRun, if_pos hc]
      have hspec := procStep_spec chunk overlap T hT h1 h2 s hpo hc
      have hj : 1 ≤ j := by
        by_contra hne
        have hj0 : j = 0 := by omega
        rw [hj0, zero_add, one_mul] at hlen
        omega
      have hlen2 : (procStep chunk overlap T s).inputBuf.length
          = j * (chunk - overlap) := by
        rw [hspec.1, hlen, Nat.succ_mul]
        omega
      have hrec := ih f (procStep chunk overlap T s) (by omega) hlen2 hspec.2.2
      constructor
      · rw [hrec.1, hspec.2.1]
        obtain ⟨jj, rfl⟩ : ∃ jj, j = jj + 1 := ⟨j - 1, by omega⟩
        simp only [Nat.add_sub_cancel, Nat.succ_mul]
        omega
      · rw [hrec.2]
        have ha : min j 1 = 1 := by omega
        have hb : min (j + 1) 1 = 1 := by omega
        rw [ha, hb]
    · have hj0 : j = 0 := by
        by_contra hne
        have hj1 : 1 ≤ j := by omega
        have hmul : 2 * (chunk - overlap) ≤ (j + 1) * (chunk - overlap) :=
          Nat.mul_le_mul_right _ (by omega)
        omega
      subst hj0
      rw [procRun_no_iter chunk overlap T fuel s (by omega)]
      constructor
      · simp
      · simpa using hlen

theorem pullDrainCount_total :
    ∀ (m : ℕ) (s : ProcState), s.outputBuf.length ≤ m * 4096 →
      pullDrainCount m s = s.outputBuf.length := by
  intro m
  induction m with
  | zero =>
    intro s h
    rw [pullDrainCount]
    omega
  | succ m ih =>
    intro s h
    rw [pullDrainCount]
    have h1 : (handlePull s).2.1 = min 4096 s.outputBuf.length := by
      simp only [handlePull, List.length_take]
      omega
    have h2 : (handlePull s).1.outputBuf.length
        = s.outputBuf.length - min 4096 s.outputBuf.length := by
      simp [handlePull]
    rw [ih _ (by rw [h2]; omega), h1, h2]
    omega

/-- C3: for every `overlap_len ≥ 1` the fade curves have length
`overlap_len`, satisfy `fade_in[i] = i/(overlap_len−1)` and
`fade_out[i] = 1 − fade_in[i]` for every `i < overlap_len`, and in the
degenerate case `overlap_len = 1` they are `[0]` and `[1]`. -/
theorem fade_curve_contract (n : ℕ) (hn : 1 ≤ n) :
    (fadeInCurve n).length = n ∧ (fadeOutCurve n).length = n ∧
    (∀ i, i < n →
      (fadeInCurve n).getD i 0 = (i : ℚ) / ((n : ℚ) - 1) ∧
      (fadeOutCurve n).getD i 0 = 1 - (fadeInCurve n).getD i 0) ∧
    (n = 1 → fadeInCurve n = [0] ∧ fadeOutCurve n = [1]) := by
  refine ⟨linspace_length 0 1 n, linspace_length 1 0 n, ?_, ?_⟩
  · intro i hi
    rw [fadeInCurve, fadeOutCurve, linspace_getD 0 1 n i hi, linspace_getD 1 0 n i hi]
    by_cases h1 : n = 1
    · subst h1
      interval_cases i
      norm_num
    · rw [if_neg h1, if_neg h1]
      constructor
      · ring
      · ring
  · intro h1
    subst h1
    constructor
    · rfl
    · rfl

/-- C3 witness: the contract evaluated at `overlap_len = 3`, `i = 1`. -/
theorem fade_curve_contract_witness :
    (fadeInCurve 3).getD 1 0 = (1 : ℚ) / ((3 : ℚ) - 1) ∧
    (fadeOutCurve 3).getD 1 0 = 1 - (fadeInCurve 3).getD 1 0 :=
  (fade_curve_contract 3 (by norm_num)).2.2.1 1 (by norm_num)

/-- C6: a heartbeat request (header 0) replies with the current output
accumulator length and leaves the state — both accumulators, in length and
order — exactly unchanged; repeated heartbeats from the initial state keep
it initial and each reply is the count 0. -/
theorem heartbeat_nondestructive (s : ProcState) (p : List ℚ) (m : ℕ) :
    handleRequest s 0 p = (s, .ack s.outputBuf.length) ∧
    (fun st => (handleRequest st 0 p).1)^[m] initialState = initialState ∧
    (handleRequest ((fun st => (handleRequest st 0 p).1)^[m] initialState) 0 p).2
      = .ack 0 := by
  have hone : ∀ st : ProcState, handleRequest st 0 p = (st, .ack st.outputBuf.length) := by
    intro st
    rw [handleRequest, if_pos rfl]
  have hid : (fun st => (handleRequest st 0 p).1) = id := by
    funext st
    rw [hone st]
    rfl
  refine ⟨hone s, ?_, ?_⟩
  · rw [hid, Function.iterate_id]
    rfl
  · rw [hid, Function.iterate_id, id_eq, hone initialState]
    rfl

/-- C7: a single pull request (header `0xFFFFFFFF`) replies with the count
`k = min 4096 (output length)` — never more than 4096 — followed by exactly
the first `k` frames of the output accumulator, removes exactly those `k`
frames from its head, and leaves the input accumulator untouched. -/
theorem pull_cap (s : ProcState) (p : List ℚ) :
    (handleRequest s 4294967295 p).2
      = .data (min 4096 s.outputBuf.length)
          (s.outputBuf.take (min 4096 s.outputBuf.length)) ∧
    (handleRequest s 4294967295 p).1
      = { s with outputBuf := s.outputBuf.drop (min 4096 s.outputBuf.length) } ∧
    min 4096 s.outputBuf.length ≤ 4096 ∧
    (s.outputBuf.take (min 4096 s.outputBuf.length)).length
      = min 4096 s.outputBuf.length ∧
    s.outputBuf.take (min 4096 s.outputBuf.length)
        ++ s.outputBuf.drop (min 4096 s.outputBuf.length) = s.outputBuf := by
  have hlen : (s.outputBuf.take (min 4096 s.outputBuf.length)).length
      = min 4096 s.outputBuf.length := by
    rw [List.length_take]
    omega
  refine ⟨?_, ?_, by omega, hlen, List.take_append_drop _ _⟩
  · rw [handleRequest, if_neg (by norm_num), if_pos rfl]
    simp [handlePull, hlen]
  · rw [handleRequest, if_neg (by norm_num), if_pos rfl]
    simp [handlePull]

/-- C8: a push declaring `n` frames is all-or-nothing: a payload short of
`n × CHANNELS × 4` bytes terminates the connection with no frames appended,
while a full payload appends exactly `n` frames to the input accumulator
(leaving the output accumulator alone) and is acknowledged with the count
`n`. -/
theorem push_all_or_nothing (n : ℕ) (s : ProcState) (received : List ℚ)
    (hn0 : n ≠ 0) (hns : n ≠ 4294967295) :
    (4 * received.length < n * CHANNELS * 4 →
      handleRequest s n received = (s, .closed)) ∧
    (n * CHANNELS * 4 ≤ 4 * received.length →
      handleRequest s n received =
        ({ s with inputBuf := s.inputBuf ++ deinterleave (received.take (n * CHANNELS)) },
         .ack n) ∧
      (deinterleave (received.take (n * CHANNELS))).length = n) := by
  constructor
  · intro hshort
    rw [handleRequest, if_neg hn0, if_neg hns, if_pos hshort]
  · intro hfull
    have hlen : (deinterleave (received.take (n * CHANNELS))).length = n := by
      rw [deinterleave_length, List.length_take, CHANNELS]
      rw [CHANNELS] at hfull
      omega
    refine ⟨?_, hlen⟩
    rw [handleRequest, if_neg hn0, if_neg hns, if_neg (by omega)]
    simp [hlen]

/-- C8 witness: pushing 1 frame with an empty payload closes the
connection and commits nothing; pushing 1 frame with its full 8-byte
payload appends exactly that frame and is acknowledged with count 1. -/
theorem push_all_or_nothing_witness :
    (handleRequest initialState 1 [] = (initialState, .closed)) ∧
    (handleRequest initialState 1 [3, 4] =
      ({ initialState with
          inputBuf := initialState.inputBuf
            ++ deinterleave (([3, 4] : List ℚ).take (1 * CHANNELS)) },
       .ack 1) ∧
     (deinterleave (([3, 4] : List ℚ).take (1 * CHANNELS))).length = 1) :=
  ⟨(push_all_or_nothing 1 initialState [] (by decide) (by decide)).1 (by decide),
   (push_all_or_nothing 1 initialState [3, 4] (by decide) (by decide)).2 (by decide)⟩

/-- C9: the transform adapter is a passthrough on failure: with no model
loaded `process_audio` returns the chunk unchanged, and when the external
engine raises, the exception is caught and the original chunk returned
unchanged (the processing loop never sees the error). -/
theorem transform_passthrough
    (engine : List Frame → Except String (List Frame)) (audio : List Frame) :
    process_audio none audio = audio ∧
    ((∃ e, engine audio = .error e) → process_audio (some engine) audio = audio) := by
  constructor
  · rfl
  · rintro ⟨e, he⟩
    rw [process_audio, he]

/-- C9 witness: a concrete failing engine call on a concrete chunk returns
the chunk unchanged. -/
theorem transform_passthrough_witness :
    process_audio (some fun _ => .error "engine failed") [((1 : ℚ), (2 : ℚ))]
      = [((1 : ℚ), (2 : ℚ))] :=
  (transform_passthrough (fun _ => .error "engine failed") [((1 : ℚ), (2 : ℚ))]).2
    ⟨"engine failed", rfl⟩

/-- C10 counterexample: construction performs no validation, so a
configuration with overlap duration equal to chunk duration (0.5 s each)
still yields a constructed server, whose hop is 0 — not positive, and not
rejected. -/
theorem nonpositive_hop_not_rejected :
    (mkServer (1/2) (1/2) 44100).hop_samples = 0 ∧
    ¬ 0 < (mkServer (1/2) (1/2) 44100).hop_samples := by
  constructor
  · norm_num [mkServer]
  · norm_num [mkServer]

/-- C10 amended: `__init__` computes `hop_samples = chunk_samples −
overlap_samples` with no validation whatsoever; the shipped configuration
(3.0 s chunk, 0.5 s overlap at 44100 Hz) happens to give the positive hop
110250, but a non-positive hop would not be rejected. -/
theorem hop_unvalidated :
    (∀ (cd ov : ℚ) (sr : ℕ),
      (mkServer cd ov sr).hop_samples
        = ((mkServer cd ov sr).chunk_samples : ℤ)
            - ((mkServer cd ov sr).overlap_samples : ℤ)) ∧
    theServer.hop_samples = 110250 ∧ 0 < theServer.hop_samples := by
  refine ⟨fun cd ov sr => rfl, theServer_hop, ?_⟩
  rw [theServer_hop]
  norm_num

/-- C2 counterexample: with exactly `hop_samples = 110250` frames in the
input accumulator (at least `hop_len`, fewer than `chunk_len = 132300`) the
loop performs no iteration at all: the state is unchanged, refuting that an
iteration proceeds as soon as `hop_len` frames are available. -/
theorem loop_needs_chunk_cex :
    (List.replicate (110250 : ℕ) zeroFrame).length = 110250 ∧
    theServer.hop_samples = 110250 ∧
    procStep theServer.chunk_samples theServer.overlap_samples id
        ⟨List.replicate 110250 zeroFrame, [], none⟩
      = ⟨List.replicate 110250 zeroFrame, [], none⟩ := by
  refine ⟨by rw [List.length_replicate], theServer_hop, ?_⟩
  rw [theServer_chunk, theServer_overlap, procStep,
    if_neg (by rw [List.length_replicate]; omega)]

/-- C2 amended: the loop performs an iteration only when the input
accumulator itself holds at least `chunk_samples` frames (the check at line
141 is against `chunk_samples`, not `hop_samples`); when it fires it pops
`hop_samples = chunk_samples − overlap_samples` frames. -/
theorem loop_condition (chunk overlap : ℕ) (T : List Frame → List Frame)
    (s : ProcState) :
    (s.inputBuf.length < chunk → procStep chunk overlap T s = s) ∧
    (chunk ≤ s.inputBuf.length →
      (procStep chunk overlap T s).inputBuf = s.inputBuf.drop (chunk - overlap) ∧
      (procStep chunk overlap T s).inputBuf.length
        = s.inputBuf.length - (chunk - overlap)) := by
  constructor
  · intro h
    rw [procStep, if_neg (by omega)]
  · intro h
    constructor
    · simp [procStep, if_pos h]
    · simp [procStep, if_pos h]

/-- C2 amended witness: with 1 frame buffered and `chunk = 3` nothing
happens; with 3 frames buffered the loop pops `3 − 1 = 2` frames. -/
theorem loop_condition_witness :
    (procStep 3 1 id ⟨[((5 : ℚ), (5 : ℚ))], [], none⟩
      = ⟨[((5 : ℚ), (5 : ℚ))], [], none⟩) ∧
    (procStep 3 1 id
        ⟨[((1 : ℚ), (1 : ℚ)), ((2 : ℚ), (2 : ℚ)), ((3 : ℚ), (3 : ℚ))], [], none⟩).inputBuf
      = [((1 : ℚ), (1 : ℚ)), ((2 : ℚ), (2 : ℚ)), ((3 : ℚ), (3 : ℚ))].drop (3 - 1) :=
  ⟨(loop_condition 3 1 id ⟨[((5 : ℚ), (5 : ℚ))], [], none⟩).1 (by decide),
   ((loop_condition 3 1 id
      ⟨[((1 : ℚ), (1 : ℚ)), ((2 : ℚ), (2 : ℚ)), ((3 : ℚ), (3 : ℚ))], [], none⟩).2
        (by decide)).1⟩

/-- C4: the guarded crossfade is the identity on the first iteration, and
on later iterations (with a full-length transformed chunk) it scales frame
`i` by `fade_in[i]` on both channels for `i < overlap_len` and leaves every
frame at index `≥ overlap_len`, and the chunk length, unchanged. -/
theorem crossfade_semantics (overlap : ℕ) (processed : List Frame) :
    crossfadeStep overlap true processed = processed ∧
    (overlap < processed.length →
      (crossfadeStep overlap false processed).length = processed.length ∧
      (∀ i, i < overlap →
        (crossfadeStep overlap false processed).getD i zeroFrame =
          ((fadeInCurve overlap).getD i 0 * (processed.getD i zeroFrame).1,
           (fadeInCurve overlap).getD i 0 * (processed.getD i zeroFrame).2)) ∧
      (∀ i, overlap ≤ i →
        (crossfadeStep overlap false processed).getD i zeroFrame
          = processed.getD i zeroFrame)) := by
  constructor
  · rw [crossfadeStep, if_neg]
    simp
  · intro hlt
    have hcf : crossfadeStep overlap false processed
        = crossfadeHead (fadeInCurve overlap) processed := by
      rw [crossfadeStep, if_pos ⟨rfl, hlt⟩]
    have hfl := fadeInCurve_length overlap
    have hzw : (List.zipWith (fun c f => (c * f.1, c * f.2))
        (fadeInCurve overlap) processed).length = overlap := by
      rw [List.length_zipWith, hfl]
      omega
    refine ⟨by rw [hcf]; exact crossfadeHead_length _ _, ?_, ?_⟩
    · intro i hi
      have hip : i < processed.length := by omega
      have hifade : i < (fadeInCurve overlap).length := by omega
      have hizw : i < (List.zipWith (fun c f => (c * f.1, c * f.2))
          (fadeInCurve overlap) processed).length := by omega
      rw [hcf, crossfadeHead, List.getD_eq_getElem?_getD,
        List.getElem?_append_left hizw, List.getElem?_zipWith,
        List.getElem?_eq_getElem hifade, List.getElem?_eq_getElem hip,
        getD_pos (fadeInCurve overlap) 0 i hifade, getD_pos processed zeroFrame i hip]
      rfl
    · intro i hi
      by_cases hip : i < processed.length
      · rw [hcf, crossfadeHead, List.getD_eq_getElem?_getD,
          List.getElem?_append_right (by omega), List.getElem?_drop]
        have hidx : (fadeInCurve overlap).length
            + (i - (List.zipWith (fun c f => (c * f.1, c * f.2))
                (fadeInCurve overlap) processed).length) = i := by
          rw [hfl, hzw]
          omega
        rw [hidx, List.getD_eq_getElem?_getD]
      · have htot : processed.length ≤ i := by omega
        rw [hcf, List.getD_eq_getElem?_getD,
          List.getElem?_eq_none (by rw [crossfadeHead_length]; omega),
          List.getD_eq_getElem?_getD, List.getElem?_eq_none htot]

/-- C4 witness: the crossfade evaluated at `overlap_len = 2` on a concrete
3-frame chunk, at the lead-in index 1. -/
theorem crossfade_semantics_witness :
    (crossfadeStep 2 false [((1 : ℚ), (1 : ℚ)), ((2 : ℚ), (2 : ℚ)), ((3 : ℚ), (3 : ℚ))]).getD
        1 zeroFrame =
      ((fadeInCurve 2).getD 1 0
          * (([((1 : ℚ), (1 : ℚ)), ((2 : ℚ), (2 : ℚ)), ((3 : ℚ), (3 : ℚ))]).getD 1 zeroFrame).1,
       (fadeInCurve 2).getD 1 0
          * (([((1 : ℚ), (1 : ℚ)), ((2 : ℚ), (2 : ℚ)), ((3 : ℚ), (3 : ℚ))]).getD 1 zeroFrame).2) :=
  (((crossfade_semantics 2
      [((1 : ℚ), (1 : ℚ)), ((2 : ℚ), (2 : ℚ)), ((3 : ℚ), (3 : ℚ))]).2
        (by decide)).2.1) 1 (by decide)

/-- C5: after an iteration, the carried overlap tail is the last
`overlap_len` frames of the *input* chunk (carried tail ++ popped frames);
in particular it does not depend on the transform at all. -/
theorem overlap_tail_from_input (chunk overlap : ℕ)
    (T T2 : List Frame → List Frame) (s : ProcState)
    (hov : 1 ≤ overlap) (h : chunk ≤ s.inputBuf.length) :
    (procStep chunk overlap T s).prevOverlap =
      some (((s.prevOverlap.getD (List.replicate overlap zeroFrame))
          ++ s.inputBuf.take (chunk - overlap)).drop
        (((s.prevOverlap.getD (List.replicate overlap zeroFrame))
          ++ s.inputBuf.take (chunk - overlap)).length - overlap)) ∧
    (procStep chunk overlap T s).prevOverlap
      = (procStep chunk overlap T2 s).prevOverlap := by
  constructor
  · simp only [procStep, if_pos h]
    rw [lastSlice, if_neg (by omega)]
  · simp only [procStep, if_pos h]

/-- C5 witness: one concrete iteration (`chunk = 2`, `overlap = 1`), with
the identity transform and with a degenerate transform returning `[]`: the
carried tail is the input chunk's last frame either way. -/
theorem overlap_tail_witness :
    (procStep 2 1 id ⟨[((5 : ℚ), (5 : ℚ)), ((6 : ℚ), (6 : ℚ))], [], none⟩).prevOverlap =
      some ((((none : Option (List Frame)).getD (List.replicate 1 zeroFrame))
          ++ [((5 : ℚ), (5 : ℚ)), ((6 : ℚ), (6 : ℚ))].take (2 - 1)).drop
        ((((none : Option (List Frame)).getD (List.replicate 1 zeroFrame))
          ++ [((5 : ℚ), (5 : ℚ)), ((6 : ℚ), (6 : ℚ))].take (2 - 1)).length - 1)) ∧
    (procStep 2 1 id ⟨[((5 : ℚ), (5 : ℚ)), ((6 : ℚ), (6 : ℚ))], [], none⟩).prevOverlap
      = (procStep 2 1 (fun _ => [])
          ⟨[((5 : ℚ), (5 : ℚ)), ((6 : ℚ), (6 : ℚ))], [], none⟩).prevOverlap :=
  overlap_tail_from_input 2 1 id (fun _ => [])
    ⟨[((5 : ℚ), (5 : ℚ)), ((6 : ℚ), (6 : ℚ))], [], none⟩ (by decide) (by decide)

/-- C1 counterexample: a full pipeline run refuting conservation. Pushing
`N = 110250` frames (one hop exactly, so `N` is a multiple of
`hop_samples = 110250`) through a push request, letting the loop poll for
100 rounds (no iteration is ever possible, since 110250 < 132300), and then
issuing 100 pulls delivers 0 frames, not `N`. -/
theorem conservation_cex :
    (110250 % 110250 = 0 ∧ 0 < (110250 : ℕ)) ∧
    pullDrainCount 100 (procRun theServer.chunk_samples theServer.overlap_samples id 100
        (handleRequest initialState 110250 (List.replicate 220500 (0 : ℚ))).1) = 0 ∧
    (0 : ℕ) ≠ 110250 := by
  refine ⟨by norm_num, ?_, by norm_num⟩
  have hstep : (handleRequest initialState 110250 (List.replicate 220500 (0 : ℚ))).1
      = ⟨deinterleave ((List.replicate 220500 (0 : ℚ)).take (110250 * CHANNELS)), [], none⟩ := by
    rw [handleRequest, if_neg (by norm_num), if_neg (by norm_num),
      if_neg (by rw [List.length_replicate, CHANNELS]; omega)]
    rfl
  rw [hstep, theServer_chunk, theServer_overlap]
  rw [procRun_no_iter _ _ _ _ _ (by
    show (deinterleave ((List.replicate 220500 (0 : ℚ)).take (110250 * CHANNELS))).length < 132300
    rw [deinterleave_length, List.length_take, List.length_replicate, CHANNELS]
    omega)]
  rw [pullDrainCount_total 100 _ (by
    show ([] : List Frame).length ≤ 100 * 4096
    simp)]
  rfl

/-- C1 amended: for `N = k · hop_len` pushed frames (`k ≥ 1`, transform
length-preserving, `1 ≤ overlap_len ≤ hop_len` as in the shipped
configuration) the loop drains only `k − 1` iterations — it stops once fewer
than `chunk_len` frames remain, stranding the final `hop_len` frames — so
the total frames delivered through pulls is `N − hop_len`, i.e.
`(k − 1) · hop_len`, not `N`. -/
theorem conservation_drain (chunk overlap k fuel m : ℕ)
    (T : List Frame → List Frame) (hT : ∀ l, (T l).length = l.length)
    (h1 : 1 ≤ overlap) (h2 : overlap ≤ chunk - overlap)
    (input : List Frame) (hin : input.length = k * (chunk - overlap))
    (hfuel : k ≤ fuel)
    (hm : (k - 1) * (chunk - overlap) ≤ m * 4096) :
    pullDrainCount m (procRun chunk overlap T fuel ⟨input, [], none⟩)
      = (k - 1) * (chunk - overlap) := by
  have hdrain := procRun_drain chunk overlap T hT h1 h2 k fuel
    ⟨input, [], none⟩ hfuel (by simpa using hin) (by intro l hl; cases hl)
  rw [pullDrainCount_total m _ (by rw [hdrain.1]; simpa using hm)]
  simpa using hdrain.1

/-- C1 amended witness: `chunk = 3`, `overlap = 1`, `hop = 2`; pushing
`N = 4 = 2·hop` frames and draining delivers `(2 − 1)·hop = 2` frames. -/
theorem conservation_drain_witness :
    pullDrainCount 1 (procRun 3 1 id 2 ⟨List.replicate 4 zeroFrame, [], none⟩)
      = (2 - 1) * (3 - 1) :=
  conservation_drain 3 1 2 2 1 id (fun _ => rfl) (by norm_num) (by norm_num)
    (List.replicate 4 zeroFrame) (by simp) (by norm_num) (by norm_num)

end Demucs
